import Mathlib

/-!
Verification of the answer-resolution core of `src/app.py`.

The Python program resolves a user question in two stages: a fuzzy match
against a fixed question/answer corpus (`PREDEFINED_QA`, matcher
`find_best_match` built on rapidfuzz's `process.extractOne` with scorer
`fuzz.token_set_ratio` and threshold `FUZZY_THRESHOLD = 70`), and a fallback
call to an external generative service (`get_openai_response`) whose failures
are converted to an apology string by a blanket `try/except`.  The orchestrator
`get_agent_response` returns a record with an `answer` and a `source` field.

Embedding choices:
* Strings are Lean `String`s; the corpus is the literal list from the source.
* Scores are exact rationals (`ℚ`).  rapidfuzz computes IEEE doubles; no claim
  depends on floating-point rounding, only on the algebraic form of the score.
* The external service call (the body of the `try` block in
  `get_openai_response`) is an oracle parameter of type
  `String → String → Except String String`; a raised exception is an
  `Except.error` carrying `str(e)`.  Python exception propagation is modelled
  by the `Except` monad, and the `try/except` by pattern matching, so that a
  function which can raise has `Except` in its result type.
* `fuzz.token_set_ratio` and `process.extractOne` are third-party library
  functions (their code is not part of this repository); they are embedded
  following the library's token-set algorithm, which the specification
  describes in §4.2: tokenize on whitespace, deduplicate, score 100 when one
  token set contains the other (nonempty intersection), otherwise the maximum
  of three normalized indel similarities over the sorted intersection and
  difference strings; `extractOne` keeps the first choice whose score strictly
  exceeds the running best (first-occurrence tie-breaking) and never returns a
  choice scoring below the cutoff 0.
-/

set_option maxRecDepth 8000

namespace ThoughtfulQA

/-- One record of the `PREDEFINED_QA` list (src/app.py lines 11-32): a
dictionary with a `question` and an `answer` string. -/
structure QAEntry where
  question : String
  answer : String
deriving DecidableEq, Repr

/-- The result record of `get_agent_response` (src/app.py lines 119-129): a
dictionary with an `answer` and a `source` key.  The spec calls it
`ResolvedAnswer`. -/
structure ResolvedAnswer where
  answer : String
  source : String
deriving DecidableEq, Repr

/-- Question text of the first corpus entry (src/app.py line 13). -/
def qEVA : String := "What does the eligibility verification agent (EVA) do?"

/-- Answer text of the first corpus entry (src/app.py line 14). -/
def aEVA : String := "EVA automates the process of verifying a patient's eligibility and benefits information in real-time, eliminating manual data entry errors and reducing claim rejections."

/-- Question text of the second corpus entry (src/app.py line 17). -/
def qCAM : String := "What does the claims processing agent (CAM) do?"

/-- Answer text of the second corpus entry (src/app.py line 18). -/
def aCAM : String := "CAM streamlines the submission and management of claims, improving accuracy, reducing manual intervention, and accelerating reimbursements."

/-- Question text of the third corpus entry (src/app.py line 21). -/
def qPHIL : String := "How does the payment posting agent (PHIL) work?"

/-- Answer text of the third corpus entry (src/app.py line 22). -/
def aPHIL : String := "PHIL automates the posting of payments to patient accounts, ensuring fast, accurate reconciliation of payments and reducing administrative burden."

/-- Question text of the fourth corpus entry (src/app.py line 25). -/
def qAgents : String := "Tell me about Thoughtful AI's Agents."

/-- Answer text of the fourth corpus entry (src/app.py line 26). -/
def aAgents : String := "Thoughtful AI provides a suite of AI-powered automation agents designed to streamline healthcare processes. These include Eligibility Verification (EVA), Claims Processing (CAM), and Payment Posting (PHIL), among others."

/-- Question text of the fifth corpus entry (src/app.py line 29). -/
def qBenefits : String := "What are the benefits of using Thoughtful AI's agents?"

/-- Answer text of the fifth corpus entry (src/app.py line 30). -/
def aBenefits : String := "Using Thoughtful AI's Agents can significantly reduce administrative costs, improve operational efficiency, and reduce errors in critical processes like claims management and payment posting."

/-- The predefined Q&A dataset, src/app.py lines 11-32 (strings named above,
verbatim from the source). -/
def PREDEFINED_QA : List QAEntry := [
  { question := qEVA, answer := aEVA },
  { question := qCAM, answer := aCAM },
  { question := qPHIL, answer := aPHIL },
  { question := qAgents, answer := aAgents },
  { question := qBenefits, answer := aBenefits }]

/-- Fuzzy matching threshold, src/app.py line 35 (`FUZZY_THRESHOLD = 70`). -/
def FUZZY_THRESHOLD : ℚ := 70

/-- Python `str.split()` / `str.strip()` whitespace (the ASCII whitespace
characters recognized by CPython). -/
def isPySpace (c : Char) : Bool :=
  c = ' ' || c = '\t' || c = '\n' || c = '\r' || c = '\x0b' || c = '\x0c'

/-- Worker for `pySplit`: walks the character list, accumulating the current
token in reverse. -/
def pySplitAux : List Char → List Char → List String
  | [], cur => if cur = [] then [] else [String.mk cur.reverse]
  | c :: cs, cur =>
    if isPySpace c then
      if cur = [] then pySplitAux cs [] else String.mk cur.reverse :: pySplitAux cs []
    else pySplitAux cs (c :: cur)

/-- Python `s.split()`: split on runs of whitespace, dropping empty tokens. -/
def pySplit (s : String) : List String := pySplitAux s.data []

/-- Python's falsiness test `not s or not s.strip()` from src/app.py line 48:
true exactly when the string is empty or consists only of whitespace. -/
def isBlank (s : String) : Bool := s.data.all isPySpace

/-- Python string comparison: lexicographic on code points. -/
def lexLe : List Char → List Char → Bool
  | [], _ => true
  | _ :: _, [] => false
  | x :: xs, y :: ys => if x = y then lexLe xs ys else decide (x < y)

/-- String order used by Python `sorted` on tokens. -/
def strLe (a b : String) : Bool := lexLe a.data b.data

/-- Insertion step of insertion sort by `strLe`. -/
def insertStr (x : String) : List String → List String
  | [] => [x]
  | y :: ys => if strLe x y then x :: y :: ys else y :: insertStr x ys

/-- Insertion sort by `strLe`, modelling Python `sorted`. -/
def sortStrs : List String → List String
  | [] => []
  | x :: xs => insertStr x (sortStrs xs)

/-- Collapse adjacent duplicates of a sorted list; composed with `sortStrs`
this yields Python's `sorted(set(tokens))`. -/
def dedupAdj : List String → List String
  | [] => []
  | [x] => [x]
  | x :: y :: ys => if x = y then dedupAdj (y :: ys) else x :: dedupAdj (y :: ys)

/-- The sorted set of whitespace-separated tokens of a string:
`sorted(set(s.split()))`. -/
def tokenSet (s : String) : List String := dedupAdj (sortStrs (pySplit s))

/-- Join tokens with a single space, Python `" ".join(tokens)`. -/
def joinSpace : List String → String
  | [] => ""
  | [x] => x
  | x :: y :: ys => x ++ " " ++ joinSpace (y :: ys)

/-- Indel (insertion/deletion) edit distance on character lists, the distance
underlying rapidfuzz's `ratio`/`Indel.normalized_similarity`. -/
def indelDist : List Char → List Char → Nat
  | [], b => b.length
  | a, [] => a.length
  | x :: a, y :: b =>
    if x = y then indelDist a b
    else 1 + min (indelDist a (y :: b)) (indelDist (x :: a) b)
termination_by a b => a.length + b.length

/-- Normalized indel similarity scaled to [0,100]:
`100 * (1 - dist / total)`, with the empty-total convention of rapidfuzz
(`norm_distance` returns a perfect score when the total length is 0). -/
def normSim (d t : Nat) : ℚ :=
  if t = 0 then 100 else 100 - 100 * (d : ℚ) / (t : ℚ)

/-- Sorted intersection of the token sets of two strings. -/
def sectOf (a b : String) : List String :=
  (tokenSet a).filter (fun t => t ∈ tokenSet b)

/-- Sorted difference: tokens of the first string missing from the second. -/
def diffAB (a b : String) : List String :=
  (tokenSet a).filter (fun t => t ∉ tokenSet b)

/-- Sorted difference: tokens of the second string missing from the first. -/
def diffBA (a b : String) : List String :=
  (tokenSet b).filter (fun t => t ∉ tokenSet a)

/-- Length of the space-joined sorted intersection string (`sect_len` in the
library). -/
def sectLen (a b : String) : Nat := (joinSpace (sectOf a b)).length

/-- `sect_len` plus the separating space that joining a nonempty intersection
in front of a difference inserts (`sect_len + bool(sect_len)`). -/
def sectLenB (a b : String) : Nat :=
  sectLen a b + (if sectLen a b = 0 then 0 else 1)

/-- rapidfuzz `fuzz.token_set_ratio` (the scorer passed to `extractOne` in
src/app.py line 58), embedded from the library's algorithm: 0 when either
token set is empty; 100 when the intersection is nonempty and one difference
is empty (one token set contains the other); otherwise the maximum of the
normalized indel similarities comparing intersection+diffA with
intersection+diffB, intersection with intersection+diffA, and intersection
with intersection+diffB, computed on the space-joined sorted token strings
(`sectLenB a b + (joinSpace (diffAB a b)).length` is the length of the
string "intersection ++ space ++ diffA"). -/
def token_set_ratio (s1 s2 : String) : ℚ :=
  if tokenSet s1 = [] ∨ tokenSet s2 = [] then 0
  else if sectOf s1 s2 ≠ [] ∧ (diffAB s1 s2 = [] ∨ diffBA s1 s2 = []) then 100
  else
    max (normSim (indelDist (joinSpace (diffAB s1 s2)).data (joinSpace (diffBA s1 s2)).data)
          (sectLenB s1 s2 + (joinSpace (diffAB s1 s2)).length +
            (sectLenB s1 s2 + (joinSpace (diffBA s1 s2)).length)))
      (max (normSim (sectLenB s1 s2 + (joinSpace (diffAB s1 s2)).length - sectLen s1 s2)
            (sectLenB s1 s2 + (joinSpace (diffAB s1 s2)).length + sectLen s1 s2))
        (normSim (sectLenB s1 s2 + (joinSpace (diffBA s1 s2)).length - sectLen s1 s2)
          (sectLenB s1 s2 + (joinSpace (diffBA s1 s2)).length + sectLen s1 s2)))

/-- One step of rapidfuzz `process.extractOne`'s scan: a choice replaces the
running best exactly when its score passes the cutoff (0) and strictly
exceeds the best score so far, so on ties the earlier choice is kept. -/
def extractStep (f : String → ℚ) (best : Option (String × ℚ)) (c : String) :
    Option (String × ℚ) :=
  match best with
  | none => if 0 ≤ f c then some (c, f c) else none
  | some (b, bs) => if 0 ≤ f c ∧ bs < f c then some (c, f c) else some (b, bs)

/-- rapidfuzz `process.extractOne` (src/app.py lines 55-59) with the default
cutoff, returning the first highest-scoring choice with its score. -/
def extractOne (f : String → ℚ) (choices : List String) : Option (String × ℚ) :=
  choices.foldl (extractStep f) none

/-- The lookup loop of src/app.py lines 66-68: first entry whose question
equals the matched question, else fall through (`None`). -/
def lookupAnswer : List QAEntry → String → Option String
  | [], _ => none
  | qa :: rest, matched =>
    if qa.question = matched then some qa.answer else lookupAnswer rest matched

/-- `find_best_match` (src/app.py lines 38-70), generalized over the scorer
and the corpus so that blank-query short-circuiting (the result does not
depend on the scorer) and the lookup fall-through are statable.  Mirrors the
source: blank guard, `extractOne` over the extracted question list, threshold
test `result[1] >= FUZZY_THRESHOLD`, then the linear answer lookup. -/
def find_best_match_gen (scorer : String → String → ℚ) (corpus : List QAEntry)
    (user_question : String) : Option (String × ℚ) :=
  if isBlank user_question then none
  else
    match extractOne (scorer user_question) (corpus.map QAEntry.question) with
    | none => none
    | some (matched, score) =>
      if FUZZY_THRESHOLD ≤ score then
        match lookupAnswer corpus matched with
        | some answer => some (answer, score)
        | none => none
      else none

/-- `find_best_match` as in the source: `token_set_ratio` scorer over
`PREDEFINED_QA`. -/
def find_best_match : String → Option (String × ℚ) :=
  find_best_match_gen token_set_ratio PREDEFINED_QA

/-- The literal apology prefix of src/app.py line 100. -/
def apologyMsg : String :=
  "I apologize, but I'm having trouble connecting to my knowledge base. Error: "

/-- `get_openai_response` (src/app.py lines 73-100).  The oracle `service` is
the body of the `try` block (client construction plus completion call plus
extraction of the message content); the `except Exception` arm turns any
error `e` into the apology string carrying `str(e)`. -/
def get_openai_response (service : String → String → Except String String)
    (user_question api_key : String) : Except String String :=
  match service user_question api_key with
  | Except.ok content => Except.ok content
  | Except.error e => Except.ok (apologyMsg ++ e)

/-- Round half to even, as Python's `format(x, '.0f')` rounds, on the exact
rational score. -/
def roundHalfEven (x : ℚ) : ℤ :=
  if x - (x.floor : ℚ) < 1/2 then x.floor
  else if 1/2 < x - (x.floor : ℚ) then x.floor + 1
  else if x.floor % 2 = 0 then x.floor else x.floor + 1

/-- The f-string `"predefined (match: {score:.0f}%)"` of src/app.py line 121. -/
def predefinedSource (score : ℚ) : String :=
  "predefined (match: " ++ toString (roundHalfEven score) ++ "%)"

/-- `get_agent_response` (src/app.py lines 103-129): fuzzy match first; on a
match return the predefined answer with the formatted source; otherwise
delegate to `get_openai_response` and tag the source "OpenAI".  The result
lives in `Except` so that a hypothetically escaping exception would be
visible; totality (the result is always `Except.ok`) is proved, not assumed. -/
def get_agent_response (service : String → String → Except String String)
    (user_question api_key : String) : Except String ResolvedAnswer :=
  match find_best_match user_question with
  | some (answer, score) =>
    Except.ok { answer := answer, source := predefinedSource score }
  | none => do
    let answer ← get_openai_response service user_question api_key
    Except.ok { answer := answer, source := "OpenAI" }

/-! ### Basic string facts -/

/-- A nonempty string has positive length. -/
theorem length_pos_of_ne {s : String} (h : s ≠ "") : 0 < s.length := by
  cases s with
  | mk data =>
    cases data with
    | nil => exact absurd rfl h
    | cons c cs => simp [String.length]

/-- Strings with equal character lists are equal. -/
theorem str_eq_of_data_eq {s t : String} (h : s.data = t.data) : s = t := by
  cases s; cases t
  exact congrArg String.mk (by simpa using h)

/-! ### Indel distance -/

/-- The indel distance vanishes exactly on equal strings. -/
theorem indelDist_eq_zero_iff (a b : List Char) : indelDist a b = 0 ↔ a = b := by
  induction a, b using indelDist.induct <;> simp_all [indelDist]

/-- When the two strings share no character, every character must be deleted
or inserted. -/
theorem indelDist_disjoint (a b : List Char) (h : ∀ c ∈ a, c ∉ b) :
    indelDist a b = a.length + b.length := by
  induction a, b using indelDist.induct <;> simp_all [indelDist]
  omega

/-! ### Normalized similarity -/

/-- A positive distance gives a similarity strictly below the perfect 100. -/
theorem normSim_lt_100 (d t : Nat) (hd : 0 < d) (ht : 0 < t) : normSim d t < 100 := by
  unfold normSim
  rw [if_neg (Nat.pos_iff_ne_zero.mp ht)]
  have hdq : (0:ℚ) < (d : ℚ) := by exact_mod_cast hd
  have htq : (0:ℚ) < (t : ℚ) := by exact_mod_cast ht
  have h1 : (0:ℚ) < 100 * (d : ℚ) / (t : ℚ) := div_pos (by linarith) htq
  linarith

/-- Similarity is nonnegative whenever the distance is within the total. -/
theorem normSim_nonneg (d t : Nat) (h : d ≤ t) : 0 ≤ normSim d t := by
  unfold normSim
  split
  · norm_num
  · rename_i ht
    have htq : (0:ℚ) < (t : ℚ) := by exact_mod_cast Nat.pos_of_ne_zero ht
    have hdt : (d : ℚ) ≤ (t : ℚ) := by exact_mod_cast h
    have h2 : 100 * (d : ℚ) / (t : ℚ) ≤ 100 := by
      rw [div_le_iff₀ htq]
      nlinarith
    linarith

/-- The similarity of a maximal distance is 0. -/
theorem normSim_self (t : Nat) (ht : 0 < t) : normSim t t = 0 := by
  unfold normSim
  rw [if_neg (Nat.pos_iff_ne_zero.mp ht)]
  have htq : (t : ℚ) ≠ 0 := by exact_mod_cast Nat.pos_iff_ne_zero.mp ht
  field_simp

/-- The similarity of a distance equal to the total is 0. -/
theorem normSim_eq_zero (d t : Nat) (h : d = t) (ht : 0 < t) : normSim d t = 0 := by
  rw [h]
  exact normSim_self t ht

/-! ### Bounds on the token-set score -/

/-- A query with no tokens scores 0 against everything. -/
theorem tsr_of_left_empty {s1 : String} (h : tokenSet s1 = []) (s2 : String) :
    token_set_ratio s1 s2 = 0 := by
  unfold token_set_ratio
  rw [if_pos (Or.inl h)]

/-- The intersection length is bounded by its padded version. -/
theorem sectLen_le_sectLenB (a b : String) : sectLen a b ≤ sectLenB a b := by
  unfold sectLenB
  split <;> omega

/-- The token-set score is never negative (needed because `extractOne`
filters on the cutoff 0). -/
theorem tsr_nonneg (s1 s2 : String) : 0 ≤ token_set_ratio s1 s2 := by
  unfold token_set_ratio
  split
  · norm_num
  · split
    · norm_num
    · refine le_trans ?_ (le_max_right _ _)
      refine le_trans ?_ (le_max_left _ _)
      exact normSim_nonneg _ _ (by omega)

/-- Away from the containment special case, the score stays strictly below
100 (the three compared strings all differ).  The hypotheses are stated on
the joined difference strings and are decidable for concrete inputs. -/
theorem tsr_lt_100 (s1 s2 : String)
    (h1 : joinSpace (diffAB s1 s2) ≠ joinSpace (diffBA s1 s2))
    (h2 : joinSpace (diffAB s1 s2) ≠ "")
    (h3 : joinSpace (diffBA s1 s2) ≠ "") :
    token_set_ratio s1 s2 < 100 := by
  unfold token_set_ratio
  split
  · norm_num
  · split
    · rename_i hcond
      exfalso
      rcases hcond.2 with hab | hba
      · exact h2 (by rw [hab]; rfl)
      · exact h3 (by rw [hba]; rfl)
    · have hab : 0 < (joinSpace (diffAB s1 s2)).length := length_pos_of_ne h2
      have hba : 0 < (joinSpace (diffBA s1 s2)).length := length_pos_of_ne h3
      have hsl := sectLen_le_sectLenB s1 s2
      have hd : 0 < indelDist (joinSpace (diffAB s1 s2)).data (joinSpace (diffBA s1 s2)).data := by
        rcases Nat.eq_zero_or_pos (indelDist (joinSpace (diffAB s1 s2)).data
          (joinSpace (diffBA s1 s2)).data) with hz | hp
        · exact absurd (str_eq_of_data_eq ((indelDist_eq_zero_iff _ _).mp hz)) h1
        · exact hp
      refine max_lt (normSim_lt_100 _ _ hd (by omega)) (max_lt ?_ ?_)
      · exact normSim_lt_100 _ _ (by omega) (by omega)
      · exact normSim_lt_100 _ _ (by omega) (by omega)

/-- With an empty intersection and character-disjoint difference strings the
score collapses to 0 (all three compared similarities vanish). -/
theorem tsr_eq_zero (s1 s2 : String)
    (h0 : sectOf s1 s2 = [])
    (h1 : ∀ c ∈ (joinSpace (diffAB s1 s2)).data, c ∉ (joinSpace (diffBA s1 s2)).data)
    (h2 : joinSpace (diffAB s1 s2) ≠ "")
    (h3 : joinSpace (diffBA s1 s2) ≠ "") :
    token_set_ratio s1 s2 = 0 := by
  unfold token_set_ratio
  split
  · rfl
  · split
    · rename_i hcond
      exact absurd h0 hcond.1
    · have hab : 0 < (joinSpace (diffAB s1 s2)).length := length_pos_of_ne h2
      have hba : 0 < (joinSpace (diffBA s1 s2)).length := length_pos_of_ne h3
      have hsect : sectLen s1 s2 = 0 := by unfold sectLen; rw [h0]; rfl
      have hsectB : sectLenB s1 s2 = 0 := by unfold sectLenB; rw [hsect]; norm_num
      have hdist := indelDist_disjoint _ _ h1
      simp only [String.length] at hab hba ⊢
      rw [hsectB, hsect, hdist]
      simp only [Nat.zero_add, Nat.add_zero, Nat.sub_zero]
      have e1 := normSim_self ((joinSpace (diffAB s1 s2)).data.length +
        (joinSpace (diffBA s1 s2)).data.length) (by omega)
      have e2 := normSim_self (joinSpace (diffAB s1 s2)).data.length hab
      have e3 := normSim_self (joinSpace (diffBA s1 s2)).data.length hba
      rw [e1, e2, e3]
      simp

/-! ### Blank queries produce no tokens -/

/-- Splitting a run of pure whitespace yields no tokens. -/
theorem pySplitAux_all_space (l : List Char) (h : ∀ c ∈ l, isPySpace c) :
    pySplitAux l [] = [] := by
  induction l with
  | nil => rfl
  | cons c cs ih =>
    unfold pySplitAux
    rw [if_pos (h c (List.mem_cons_self c cs))]
    exact if_pos rfl ▸ ih (fun x hx => h x (List.mem_cons_of_mem c hx))

/-- A blank string has an empty token set. -/
theorem tokenSet_of_blank {s : String} (h : isBlank s = true) : tokenSet s = [] := by
  unfold tokenSet pySplit
  rw [pySplitAux_all_space s.data (by simpa [isBlank, List.all_eq_true] using h)]
  rfl

/-! ### The extractOne scan -/

/-- A best candidate at least as good as every remaining choice survives the
rest of the scan. -/
theorem extract_keep (f : String → ℚ) (cs : List String) (b : String) (bs : ℚ)
    (h : ∀ x ∈ cs, f x ≤ bs) :
    List.foldl (extractStep f) (some (b, bs)) cs = some (b, bs) := by
  induction cs with
  | nil => rfl
  | cons c cs ih =>
    have hc : ¬(0 ≤ f c ∧ bs < f c) := by
      rintro ⟨-, hlt⟩
      exact absurd (h c (List.mem_cons_self c cs)) (not_le.mpr hlt)
    simp only [List.foldl_cons, extractStep, if_neg hc]
    exact ih (fun x hx => h x (List.mem_cons_of_mem c hx))

/-- If a choice beats the running best and everything around it, the scan
ends on that choice. -/
theorem extract_reach (f : String → ℚ) (l₁ : List String) (b c : String) (bs : ℚ)
    (l₂ : List String) (hb : 0 ≤ bs) (hc : bs < f c)
    (h1 : ∀ x ∈ l₁, f x < f c) (h2 : ∀ x ∈ l₂, f x ≤ f c) :
    List.foldl (extractStep f) (some (b, bs)) (l₁ ++ c :: l₂) = some (c, f c) := by
  induction l₁ generalizing b bs with
  | nil =>
    simp only [List.nil_append, List.foldl_cons, extractStep,
      if_pos (And.intro (le_of_lt (lt_of_le_of_lt hb hc)) hc)]
    exact extract_keep f l₂ c (f c) h2
  | cons a l₁ ih =>
    simp only [List.cons_append, List.foldl_cons, extractStep]
    by_cases ha : 0 ≤ f a ∧ bs < f a
    · rw [if_pos ha]
      exact ih a (f a) ha.1 (h1 a (List.mem_cons_self a l₁))
        (fun x hx => h1 x (List.mem_cons_of_mem a hx))
    · rw [if_neg ha]
      exact ih b bs hb hc (fun x hx => h1 x (List.mem_cons_of_mem a hx))

/-- Construction form of the `extractOne` contract: a choice strictly better
than everything before it and at least as good as everything after it is the
one returned, with its own score. -/
theorem extractOne_eq (f : String → ℚ) (l₁ : List String) (c : String) (l₂ : List String)
    (hf : ∀ x ∈ l₁, 0 ≤ f x) (hc : 0 ≤ f c)
    (h1 : ∀ x ∈ l₁, f x < f c) (h2 : ∀ x ∈ l₂, f x ≤ f c) :
    extractOne f (l₁ ++ c :: l₂) = some (c, f c) := by
  cases l₁ with
  | nil =>
    unfold extractOne
    simp only [List.nil_append, List.foldl_cons, extractStep, if_pos hc]
    exact extract_keep f l₂ c (f c) h2
  | cons a l₁ =>
    unfold extractOne
    simp only [List.cons_append, List.foldl_cons, extractStep,
      if_pos (hf a (List.mem_cons_self a l₁))]
    exact extract_reach f l₁ a c (f a) l₂ (hf a (List.mem_cons_self a l₁))
      (h1 a (List.mem_cons_self a l₁))
      (fun x hx => h1 x (List.mem_cons_of_mem a hx)) h2

/-- Invariant of the scan from a nonnegative running best: either the best
survives and dominates all remaining choices, or the scan ends on the first
remaining choice strictly better than everything before it. -/
theorem extractAux_spec (f : String → ℚ) (cs : List String) (b : String) (bs : ℚ)
    (hf : ∀ x ∈ cs, 0 ≤ f x) (hb : 0 ≤ bs) :
    (List.foldl (extractStep f) (some (b, bs)) cs = some (b, bs) ∧ ∀ x ∈ cs, f x ≤ bs) ∨
    (∃ l₁ c l₂, cs = l₁ ++ c :: l₂ ∧
      List.foldl (extractStep f) (some (b, bs)) cs = some (c, f c) ∧
      bs < f c ∧ (∀ x ∈ l₁, f x < f c) ∧ (∀ x ∈ l₂, f x ≤ f c)) := by
  induction cs generalizing b bs with
  | nil => exact Or.inl ⟨rfl, by simp⟩
  | cons a cs ih =>
    by_cases ha : 0 ≤ f a ∧ bs < f a
    · have hstep : List.foldl (extractStep f) (some (b, bs)) (a :: cs) =
          List.foldl (extractStep f) (some (a, f a)) cs := by
        simp only [List.foldl_cons, extractStep, if_pos ha]
      rcases ih a (f a) (fun x hx => hf x (List.mem_cons_of_mem a hx)) ha.1 with
        ⟨hres, hall⟩ | ⟨l₁, c, l₂, hdec, hres, hlt, hl₁, hl₂⟩
      · refine Or.inr ⟨[], a, cs, by simp, ?_, ha.2, by simp, hall⟩
        rw [hstep]; exact hres
      · refine Or.inr ⟨a :: l₁, c, l₂, by rw [hdec]; rfl, ?_, lt_trans ha.2 hlt, ?_, hl₂⟩
        · rw [hstep]; exact hres
        · intro x hx
          rcases List.mem_cons.mp hx with rfl | hx
          · exact hlt
          · exact hl₁ x hx
    · have hstep : List.foldl (extractStep f) (some (b, bs)) (a :: cs) =
          List.foldl (extractStep f) (some (b, bs)) cs := by
        simp only [List.foldl_cons, extractStep, if_neg ha]
      have hafa : f a ≤ bs := by
        rcases not_and_or.mp ha with h | h
        · exact absurd (hf a (List.mem_cons_self a cs)) h
        · exact le_of_not_lt h
      rcases ih b bs (fun x hx => hf x (List.mem_cons_of_mem a hx)) hb with
        ⟨hres, hall⟩ | ⟨l₁, c, l₂, hdec, hres, hlt, hl₁, hl₂⟩
      · refine Or.inl ⟨by rw [hstep]; exact hres, ?_⟩
        intro x hx
        rcases List.mem_cons.mp hx with rfl | hx
        · exact hafa
        · exact hall x hx
      · refine Or.inr ⟨a :: l₁, c, l₂, by rw [hdec]; rfl, ?_, hlt, ?_, hl₂⟩
        · rw [hstep]; exact hres
        · intro x hx
          rcases List.mem_cons.mp hx with rfl | hx
          · exact lt_of_le_of_lt hafa hlt
          · exact hl₁ x hx

/-- Analysis form of the `extractOne` contract: the returned choice carries
its own score, strictly beats every earlier choice, and is at least as good
as every later one (first-occurrence argmax). -/
theorem extractOne_some_spec (f : String → ℚ) (cs : List String) (c : String) (s : ℚ)
    (hf : ∀ x ∈ cs, 0 ≤ f x) (h : extractOne f cs = some (c, s)) :
    ∃ l₁ l₂, cs = l₁ ++ c :: l₂ ∧ s = f c ∧
      (∀ x ∈ l₁, f x < s) ∧ (∀ x ∈ l₂, f x ≤ s) := by
  cases cs with
  | nil => exact absurd h (by simp [extractOne])
  | cons a cs =>
    have hstep : extractOne f (a :: cs) = List.foldl (extractStep f) (some (a, f a)) cs := by
      simp only [extractOne, List.foldl_cons, extractStep,
        if_pos (hf a (List.mem_cons_self a cs))]
    rcases extractAux_spec f cs a (f a) (fun x hx => hf x (List.mem_cons_of_mem a hx))
        (hf a (List.mem_cons_self a cs)) with
      ⟨hres, hall⟩ | ⟨l₁, c', l₂, hdec, hres, hlt, hl₁, hl₂⟩
    · rw [hstep, hres] at h
      obtain ⟨rfl, rfl⟩ : a = c ∧ f a = s := by
        constructor <;> [exact (Prod.mk.injEq _ _ _ _ ▸ Option.some.inj h).1;
          exact (Prod.mk.injEq _ _ _ _ ▸ Option.some.inj h).2]
      exact ⟨[], cs, by simp, rfl, by simp, hall⟩
    · rw [hstep, hres] at h
      obtain ⟨rfl, rfl⟩ : c' = c ∧ f c' = s := by
        constructor <;> [exact (Prod.mk.injEq _ _ _ _ ▸ Option.some.inj h).1;
          exact (Prod.mk.injEq _ _ _ _ ▸ Option.some.inj h).2]
      refine ⟨a :: l₁, l₂, by rw [hdec]; rfl, rfl, ?_, hl₂⟩
      intro x hx
      rcases List.mem_cons.mp hx with rfl | hx
      · exact hlt
      · exact hl₁ x hx

/-! ### The answer lookup loop -/

/-- A question present in the corpus is always found by the lookup loop. -/
theorem lookup_of_mem (corpus : List QAEntry) (c : String)
    (h : c ∈ corpus.map QAEntry.question) :
    ∃ a, lookupAnswer corpus c = some a := by
  induction corpus with
  | nil => simp at h
  | cons qa rest ih =>
    by_cases hq : qa.question = c
    · exact ⟨qa.answer, by simp [lookupAnswer, hq]⟩
    · have : c ∈ rest.map QAEntry.question := by
        rcases List.mem_map.mp h with ⟨e, he, heq⟩
        rcases List.mem_cons.mp he with rfl | he
        · exact absurd heq hq
        · exact List.mem_map.mpr ⟨e, he, heq⟩
      obtain ⟨a, ha⟩ := ih this
      exact ⟨a, by simp [lookupAnswer, hq, ha]⟩

/-- A question absent from the corpus falls through the loop: the lookup
returns `None` (the counterfactual branch of src/app.py lines 66-70). -/
theorem lookup_of_not_mem (corpus : List QAEntry) (c : String)
    (h : c ∉ corpus.map QAEntry.question) :
    lookupAnswer corpus c = none := by
  induction corpus with
  | nil => rfl
  | cons qa rest ih =>
    have hq : qa.question ≠ c := fun he => h (List.mem_map.mpr ⟨qa, List.mem_cons_self qa rest, he⟩)
    have hr : c ∉ rest.map QAEntry.question := fun hm => by
      rcases List.mem_map.mp hm with ⟨e, he, heq⟩
      exact h (List.mem_map.mpr ⟨e, List.mem_cons_of_mem qa he, heq⟩)
    simp [lookupAnswer, hq, ih hr]

/-! ### Shape lemmas for the matcher and the resolver -/

/-- Construction form of `find_best_match_gen`: all branch conditions
supplied. -/
theorem fbm_gen_eq_some (scorer : String → String → ℚ) (corpus : List QAEntry)
    (q c : String) (sc : ℚ) (a : String)
    (hb : isBlank q = false)
    (he : extractOne (scorer q) (corpus.map QAEntry.question) = some (c, sc))
    (ht : FUZZY_THRESHOLD ≤ sc)
    (hl : lookupAnswer corpus c = some a) :
    find_best_match_gen scorer corpus q = some (a, sc) := by
  unfold find_best_match_gen
  rw [hb]
  simp only [Bool.false_eq_true, if_false, he, if_pos ht, hl]

/-- Analysis form of `find_best_match_gen`: a returned match passed every
branch condition. -/
theorem fbm_gen_inv (scorer : String → String → ℚ) (corpus : List QAEntry)
    (q a : String) (sc : ℚ)
    (h : find_best_match_gen scorer corpus q = some (a, sc)) :
    isBlank q = false ∧
      ∃ c, extractOne (scorer q) (corpus.map QAEntry.question) = some (c, sc) ∧
        FUZZY_THRESHOLD ≤ sc ∧ lookupAnswer corpus c = some a := by
  unfold find_best_match_gen at h
  split at h
  · exact absurd h (by simp)
  · rename_i hb
    split at h
    · exact absurd h (by simp)
    · rename_i c0 sc0 hm
      split at h
      · rename_i ht
        split at h
        · rename_i ans hl
          obtain ⟨rfl, rfl⟩ : ans = a ∧ sc0 = sc := by simpa using h
          have hb' : isBlank q = false := by simpa using hb
          exact ⟨hb', c0, hm, ht, hl⟩
        · exact absurd h (by simp)
      · exact absurd h (by simp)

/-- The accepted path of `get_agent_response`. -/
theorem gar_of_match (service : String → String → Except String String)
    (q k a : String) (sc : ℚ) (h : find_best_match q = some (a, sc)) :
    get_agent_response service q k =
      Except.ok { answer := a, source := predefinedSource sc } := by
  unfold get_agent_response
  rw [h]

/-- The fallback responder never lets an exception escape. -/
theorem openai_ok (service : String → String → Except String String) (q k : String) :
    ∃ a, get_openai_response service q k = Except.ok a := by
  unfold get_openai_response
  cases service q k with
  | ok content => exact ⟨content, rfl⟩
  | error e => exact ⟨apologyMsg ++ e, rfl⟩

/-- The rejected path of `get_agent_response`: answer from the fallback
responder, source "OpenAI". -/
theorem gar_of_none (service : String → String → Except String String)
    (q k : String) (h : find_best_match q = none) :
    ∃ a, get_openai_response service q k = Except.ok a ∧
      get_agent_response service q k = Except.ok { answer := a, source := "OpenAI" } := by
  unfold get_agent_response
  rw [h]
  obtain ⟨a, ha⟩ := openai_ok service q k
  exact ⟨a, ha, by rw [ha]; rfl⟩

/-- A nonempty choice list (with nonnegative scores) always yields a result. -/
theorem extractOne_isSome (f : String → ℚ) (cs : List String) (hne : cs ≠ [])
    (hf : ∀ x ∈ cs, 0 ≤ f x) : ∃ c s, extractOne f cs = some (c, s) := by
  cases cs with
  | nil => exact absurd rfl hne
  | cons a cs =>
    have hstep : extractOne f (a :: cs) = List.foldl (extractStep f) (some (a, f a)) cs := by
      simp only [extractOne, List.foldl_cons, extractStep,
        if_pos (hf a (List.mem_cons_self a cs))]
    rcases extractAux_spec f cs a (f a) (fun x hx => hf x (List.mem_cons_of_mem a hx))
        (hf a (List.mem_cons_self a cs)) with
      ⟨hres, -⟩ | ⟨l₁, c, l₂, -, hres, -, -, -⟩
    · exact ⟨a, f a, by rw [hstep]; exact hres⟩
    · exact ⟨c, f c, by rw [hstep]; exact hres⟩

/-- A blank query short-circuits the matcher for every scorer and corpus. -/
theorem fbm_gen_blank (scorer : String → String → ℚ) (corpus : List QAEntry)
    (q : String) (hq : isBlank q = true) :
    find_best_match_gen scorer corpus q = none := by
  unfold find_best_match_gen
  rw [hq]
  rfl

/-- A best score below the threshold makes the matcher return `None`. -/
theorem fbm_gen_eq_none_of_low (scorer : String → String → ℚ) (corpus : List QAEntry)
    (q c : String) (sc : ℚ)
    (he : extractOne (scorer q) (corpus.map QAEntry.question) = some (c, sc))
    (ht : ¬ FUZZY_THRESHOLD ≤ sc) :
    find_best_match_gen scorer corpus q = none := by
  unfold find_best_match_gen
  split
  · rfl
  · rw [he]
    simp only [if_neg ht]

/-- A successful lookup returns the answer of the first entry carrying the
matched question. -/
theorem lookup_some_split (corpus : List QAEntry) (c a : String)
    (h : lookupAnswer corpus c = some a) :
    ∃ pre qa post, corpus = pre ++ qa :: post ∧ qa.question = c ∧ qa.answer = a ∧
      ∀ e ∈ pre, e.question ≠ c := by
  induction corpus with
  | nil => exact absurd h (by simp [lookupAnswer])
  | cons e rest ih =>
    by_cases he : e.question = c
    · unfold lookupAnswer at h
      rw [if_pos he] at h
      exact ⟨[], e, rest, rfl, he, Option.some.inj h, by simp⟩
    · unfold lookupAnswer at h
      rw [if_neg he] at h
      obtain ⟨pre, qa, post, hsplit, h1, h2, h3⟩ := ih h
      refine ⟨e :: pre, qa, post, by rw [hsplit]; rfl, h1, h2, ?_⟩
      intro x hx
      rcases List.mem_cons.mp hx with rfl | hx
      · exact he
      · exact h3 x hx

/-- A string with an empty character list is the empty string. -/
theorem str_data_empty {a : String} (h : a.data = []) : a = "" :=
  str_eq_of_data_eq (by rw [h])

/-- Appending to a nonempty string keeps it nonempty. -/
theorem str_append_ne_left {a : String} (b : String) (ha : a ≠ "") : a ++ b ≠ "" := by
  intro h
  apply ha
  apply str_data_empty
  have : (a ++ b).data = [] := by rw [h]
  rw [String.data_append] at this
  exact (List.append_eq_nil.mp this).1

/-! ### Concrete facts about the five corpus questions -/

/-- The extracted question list of src/app.py line 52. -/
theorem questions_eq :
    PREDEFINED_QA.map QAEntry.question = [qEVA, qCAM, qPHIL, qAgents, qBenefits] := rfl

/-- The scan on the first corpus question selects it with a perfect score. -/
theorem extract_qEVA : extractOne (token_set_ratio qEVA) (PREDEFINED_QA.map QAEntry.question) =
    some (qEVA, 100) := by
  have h100 : token_set_ratio qEVA qEVA = 100 := by decide
  have c1 : token_set_ratio qEVA qCAM < 100 := tsr_lt_100 _ _ (by decide) (by decide) (by decide)
  have c2 : token_set_ratio qEVA qPHIL < 100 := tsr_lt_100 _ _ (by decide) (by decide) (by decide)
  have c3 : token_set_ratio qEVA qAgents < 100 := tsr_lt_100 _ _ (by decide) (by decide) (by decide)
  have c4 : token_set_ratio qEVA qBenefits < 100 :=
    tsr_lt_100 _ _ (by decide) (by decide) (by decide)
  have h := extractOne_eq (token_set_ratio qEVA) [] qEVA [qCAM, qPHIL, qAgents, qBenefits]
    (fun x hx => absurd hx (List.not_mem_nil x)) (tsr_nonneg _ _)
    (fun x hx => absurd hx (List.not_mem_nil x))
    (by
      intro x hx
      rw [h100]
      simp only [List.mem_cons, List.not_mem_nil, or_false] at hx
      rcases hx with rfl | rfl | rfl | rfl
      · exact le_of_lt c1
      · exact le_of_lt c2
      · exact le_of_lt c3
      · exact le_of_lt c4)
  rw [questions_eq, ← h100]
  simpa using h

/-- The scan on the second corpus question selects it with a perfect score. -/
theorem extract_qCAM : extractOne (token_set_ratio qCAM) (PREDEFINED_QA.map QAEntry.question) =
    some (qCAM, 100) := by
  have h100 : token_set_ratio qCAM qCAM = 100 := by decide
  have c0 : token_set_ratio qCAM qEVA < 100 := tsr_lt_100 _ _ (by decide) (by decide) (by decide)
  have c2 : token_set_ratio qCAM qPHIL < 100 := tsr_lt_100 _ _ (by decide) (by decide) (by decide)
  have c3 : token_set_ratio qCAM qAgents < 100 := tsr_lt_100 _ _ (by decide) (by decide) (by decide)
  have c4 : token_set_ratio qCAM qBenefits < 100 :=
    tsr_lt_100 _ _ (by decide) (by decide) (by decide)
  have h := extractOne_eq (token_set_ratio qCAM) [qEVA] qCAM [qPHIL, qAgents, qBenefits]
    (fun x _ => tsr_nonneg _ _) (tsr_nonneg _ _)
    (by
      intro x hx
      simp only [List.mem_cons, List.not_mem_nil, or_false] at hx
      subst hx
      rw [h100]
      exact c0)
    (by
      intro x hx
      rw [h100]
      simp only [List.mem_cons, List.not_mem_nil, or_false] at hx
      rcases hx with rfl | rfl | rfl
      · exact le_of_lt c2
      · exact le_of_lt c3
      · exact le_of_lt c4)
  rw [questions_eq, ← h100]
  simpa using h

/-- The scan on the third corpus question selects it with a perfect score. -/
theorem extract_qPHIL : extractOne (token_set_ratio qPHIL) (PREDEFINED_QA.map QAEntry.question) =
    some (qPHIL, 100) := by
  have h100 : token_set_ratio qPHIL qPHIL = 100 := by decide
  have c0 : token_set_ratio qPHIL qEVA < 100 := tsr_lt_100 _ _ (by decide) (by decide) (by decide)
  have c1 : token_set_ratio qPHIL qCAM < 100 := tsr_lt_100 _ _ (by decide) (by decide) (by decide)
  have c3 : token_set_ratio qPHIL qAgents < 100 :=
    tsr_lt_100 _ _ (by decide) (by decide) (by decide)
  have c4 : token_set_ratio qPHIL qBenefits < 100 :=
    tsr_lt_100 _ _ (by decide) (by decide) (by decide)
  have h := extractOne_eq (token_set_ratio qPHIL) [qEVA, qCAM] qPHIL [qAgents, qBenefits]
    (fun x _ => tsr_nonneg _ _) (tsr_nonneg _ _)
    (by
      intro x hx
      rw [h100]
      simp only [List.mem_cons, List.not_mem_nil, or_false] at hx
      rcases hx with rfl | rfl
      · exact c0
      · exact c1)
    (by
      intro x hx
      rw [h100]
      simp only [List.mem_cons, List.not_mem_nil, or_false] at hx
      rcases hx with rfl | rfl
      · exact le_of_lt c3
      · exact le_of_lt c4)
  rw [questions_eq, ← h100]
  simpa using h

/-- The scan on the fourth corpus question selects it with a perfect score. -/
theorem extract_qAgents :
    extractOne (token_set_ratio qAgents) (PREDEFINED_QA.map QAEntry.question) =
      some (qAgents, 100) := by
  have h100 : token_set_ratio qAgents qAgents = 100 := by decide
  have c0 : token_set_ratio qAgents qEVA < 100 :=
    tsr_lt_100 _ _ (by decide) (by decide) (by decide)
  have c1 : token_set_ratio qAgents qCAM < 100 :=
    tsr_lt_100 _ _ (by decide) (by decide) (by decide)
  have c2 : token_set_ratio qAgents qPHIL < 100 :=
    tsr_lt_100 _ _ (by decide) (by decide) (by decide)
  have c4 : token_set_ratio qAgents qBenefits < 100 :=
    tsr_lt_100 _ _ (by decide) (by decide) (by decide)
  have h := extractOne_eq (token_set_ratio qAgents) [qEVA, qCAM, qPHIL] qAgents [qBenefits]
    (fun x _ => tsr_nonneg _ _) (tsr_nonneg _ _)
    (by
      intro x hx
      rw [h100]
      simp only [List.mem_cons, List.not_mem_nil, or_false] at hx
      rcases hx with rfl | rfl | rfl
      · exact c0
      · exact c1
      · exact c2)
    (by
      intro x hx
      rw [h100]
      simp only [List.mem_cons, List.not_mem_nil, or_false] at hx
      rcases hx with rfl
      exact le_of_lt c4)
  rw [questions_eq, ← h100]
  simpa using h

/-- The scan on the fifth corpus question selects it with a perfect score. -/
theorem extract_qBenefits :
    extractOne (token_set_ratio qBenefits) (PREDEFINED_QA.map QAEntry.question) =
      some (qBenefits, 100) := by
  have h100 : token_set_ratio qBenefits qBenefits = 100 := by decide
  have c0 : token_set_ratio qBenefits qEVA < 100 :=
    tsr_lt_100 _ _ (by decide) (by decide) (by decide)
  have c1 : token_set_ratio qBenefits qCAM < 100 :=
    tsr_lt_100 _ _ (by decide) (by decide) (by decide)
  have c2 : token_set_ratio qBenefits qPHIL < 100 :=
    tsr_lt_100 _ _ (by decide) (by decide) (by decide)
  have c3 : token_set_ratio qBenefits qAgents < 100 :=
    tsr_lt_100 _ _ (by decide) (by decide) (by decide)
  have h := extractOne_eq (token_set_ratio qBenefits) [qEVA, qCAM, qPHIL, qAgents] qBenefits []
    (fun x _ => tsr_nonneg _ _) (tsr_nonneg _ _)
    (by
      intro x hx
      rw [h100]
      simp only [List.mem_cons, List.not_mem_nil, or_false] at hx
      rcases hx with rfl | rfl | rfl | rfl
      · exact c0
      · exact c1
      · exact c2
      · exact c3)
    (fun x hx => absurd hx (List.not_mem_nil x))
  rw [questions_eq, ← h100]
  simpa using h

/-- `find_best_match` on the first corpus question. -/
theorem fbm_qEVA : find_best_match qEVA = some (aEVA, 100) := by
  unfold find_best_match
  exact fbm_gen_eq_some token_set_ratio PREDEFINED_QA qEVA qEVA 100 aEVA (by decide)
    extract_qEVA (by decide) (by decide)

/-- `find_best_match` on the second corpus question. -/
theorem fbm_qCAM : find_best_match qCAM = some (aCAM, 100) := by
  unfold find_best_match
  exact fbm_gen_eq_some token_set_ratio PREDEFINED_QA qCAM qCAM 100 aCAM (by decide)
    extract_qCAM (by decide) (by decide)

/-- `find_best_match` on the third corpus question. -/
theorem fbm_qPHIL : find_best_match qPHIL = some (aPHIL, 100) := by
  unfold find_best_match
  exact fbm_gen_eq_some token_set_ratio PREDEFINED_QA qPHIL qPHIL 100 aPHIL (by decide)
    extract_qPHIL (by decide) (by decide)

/-- `find_best_match` on the fourth corpus question. -/
theorem fbm_qAgents : find_best_match qAgents = some (aAgents, 100) := by
  unfold find_best_match
  exact fbm_gen_eq_some token_set_ratio PREDEFINED_QA qAgents qAgents 100 aAgents (by decide)
    extract_qAgents (by decide) (by decide)

/-- `find_best_match` on the fifth corpus question. -/
theorem fbm_qBenefits : find_best_match qBenefits = some (aBenefits, 100) := by
  unfold find_best_match
  exact fbm_gen_eq_some token_set_ratio PREDEFINED_QA qBenefits qBenefits 100 aBenefits (by decide)
    extract_qBenefits (by decide) (by decide)

/-- `find_best_match` on any corpus question returns that entry's answer with
score 100. -/
theorem fbm_of_mem : ∀ qa ∈ PREDEFINED_QA, find_best_match qa.question = some (qa.answer, 100) := by
  intro qa hqa
  simp only [PREDEFINED_QA, List.mem_cons, List.not_mem_nil, or_false] at hqa
  rcases hqa with rfl | rfl | rfl | rfl | rfl
  · exact fbm_qEVA
  · exact fbm_qCAM
  · exact fbm_qPHIL
  · exact fbm_qAgents
  · exact fbm_qBenefits

/-- The probe query "@" shares no token and no character with any corpus
question, so every similarity score collapses to 0. -/
theorem tsr_at_zero : ∀ qa ∈ PREDEFINED_QA, token_set_ratio "@" qa.question = 0 := by
  intro qa hqa
  simp only [PREDEFINED_QA, List.mem_cons, List.not_mem_nil, or_false] at hqa
  rcases hqa with rfl | rfl | rfl | rfl | rfl <;>
    exact tsr_eq_zero _ _ (by decide) (by decide) (by decide) (by decide)

/-- On the probe query "@" the scan returns the first question with score 0
(every choice ties at the cutoff, so the first is kept). -/
theorem extract_at : extractOne (token_set_ratio "@") (PREDEFINED_QA.map QAEntry.question) =
    some (qEVA, 0) := by
  have z0 : token_set_ratio "@" qEVA = 0 :=
    tsr_eq_zero _ _ (by decide) (by decide) (by decide) (by decide)
  have z1 : token_set_ratio "@" qCAM = 0 :=
    tsr_eq_zero _ _ (by decide) (by decide) (by decide) (by decide)
  have z2 : token_set_ratio "@" qPHIL = 0 :=
    tsr_eq_zero _ _ (by decide) (by decide) (by decide) (by decide)
  have z3 : token_set_ratio "@" qAgents = 0 :=
    tsr_eq_zero _ _ (by decide) (by decide) (by decide) (by decide)
  have z4 : token_set_ratio "@" qBenefits = 0 :=
    tsr_eq_zero _ _ (by decide) (by decide) (by decide) (by decide)
  have h := extractOne_eq (token_set_ratio "@") [] qEVA [qCAM, qPHIL, qAgents, qBenefits]
    (fun x hx => absurd hx (List.not_mem_nil x)) (tsr_nonneg _ _)
    (fun x hx => absurd hx (List.not_mem_nil x))
    (by
      intro x hx
      rw [z0]
      simp only [List.mem_cons, List.not_mem_nil, or_false] at hx
      rcases hx with rfl | rfl | rfl | rfl
      · exact le_of_eq z1
      · exact le_of_eq z2
      · exact le_of_eq z3
      · exact le_of_eq z4)
  rw [questions_eq, ← z0]
  simpa using h

/-- The probe query "@" is rejected: its best score 0 misses the threshold. -/
theorem fbm_at : find_best_match "@" = none := by
  unfold find_best_match
  exact fbm_gen_eq_none_of_low token_set_ratio PREDEFINED_QA "@" qEVA 0 extract_at (by decide)

/-- The formatted source string for a perfect score. -/
theorem predefinedSource_100 : predefinedSource 100 = "predefined (match: 100%)" := by
  have h : (100:ℚ).floor = 100 := by decide
  unfold predefinedSource roundHalfEven
  rw [h]
  norm_num
  rfl

/-! ### The claims -/

/-- Claim C1: for every query string exactly equal to the question text of
some corpus entry in `PREDEFINED_QA`, `get_agent_response` returns that
entry's answer, the similarity score is 100, and the source field carries the
"predefined" provenance tag. -/
theorem C1_exact_question_scores_100 (qa : QAEntry) (hqa : qa ∈ PREDEFINED_QA)
    (service : String → String → Except String String) (api_key : String) :
    find_best_match qa.question = some (qa.answer, 100) ∧
      get_agent_response service qa.question api_key =
        Except.ok { answer := qa.answer, source := "predefined (match: 100%)" } := by
  have h := fbm_of_mem qa hqa
  refine ⟨h, ?_⟩
  rw [gar_of_match service qa.question api_key qa.answer 100 h, predefinedSource_100]

/-- Witness for C1 at the first corpus entry. -/
theorem C1_exact_question_scores_100_witness :
    ({ question := qEVA, answer := aEVA } : QAEntry) ∈ PREDEFINED_QA ∧
      find_best_match qEVA = some (aEVA, 100) ∧
      get_agent_response (fun _ _ => Except.error "boom") qEVA "key" =
        Except.ok { answer := aEVA, source := "predefined (match: 100%)" } := by
  have hm : ({ question := qEVA, answer := aEVA } : QAEntry) ∈ PREDEFINED_QA :=
    List.mem_cons_self _ _
  have h := C1_exact_question_scores_100 { question := qEVA, answer := aEVA } hm
    (fun _ _ => Except.error "boom") "key"
  exact ⟨hm, h.1, h.2⟩

/-- Claim C2: the matcher accepts exactly when the best similarity score over
the corpus reaches the threshold 70: if some corpus question scores at least
`FUZZY_THRESHOLD` the matcher returns a match (so a query scoring exactly at
the threshold is accepted), and if every corpus question scores strictly
below the threshold the matcher returns `None` and the resolver's source is
the fallback tag "OpenAI", never a predefined tag. -/
theorem C2_threshold_acceptance (q api_key : String)
    (service : String → String → Except String String) :
    ((∃ qa ∈ PREDEFINED_QA, FUZZY_THRESHOLD ≤ token_set_ratio q qa.question) →
      (find_best_match q).isSome = true) ∧
    ((∀ qa ∈ PREDEFINED_QA, token_set_ratio q qa.question < FUZZY_THRESHOLD) →
      find_best_match q = none ∧
        ∃ r, get_agent_response service q api_key = Except.ok r ∧ r.source = "OpenAI") := by
  constructor
  · rintro ⟨qa, hqa, hge⟩
    cases hB : isBlank q with
    | true =>
      have h0 := tsr_of_left_empty (tokenSet_of_blank hB) qa.question
      rw [h0] at hge
      exact absurd hge (by decide)
    | false =>
      obtain ⟨c, s, hcs⟩ := extractOne_isSome (token_set_ratio q)
        (PREDEFINED_QA.map QAEntry.question) (by rw [questions_eq]; simp)
        (fun x _ => tsr_nonneg _ _)
      obtain ⟨l₁, l₂, hdec, hs, hlt, hle⟩ :=
        extractOne_some_spec _ _ c s (fun x _ => tsr_nonneg _ _) hcs
      have hqs : token_set_ratio q qa.question ≤ s := by
        have hmem : qa.question ∈ PREDEFINED_QA.map QAEntry.question :=
          List.mem_map.mpr ⟨qa, hqa, rfl⟩
        rw [hdec] at hmem
        rcases List.mem_append.mp hmem with h1 | h2
        · exact le_of_lt (hlt _ h1)
        · rcases List.mem_cons.mp h2 with heq | h3
          · rw [heq]
            exact le_of_eq hs.symm
          · exact hle _ h3
      have hc_mem : c ∈ PREDEFINED_QA.map QAEntry.question := by
        rw [hdec]
        exact List.mem_append.mpr (Or.inr (List.mem_cons_self _ _))
      obtain ⟨ans, hl⟩ := lookup_of_mem PREDEFINED_QA c hc_mem
      have hfbm : find_best_match q = some (ans, s) :=
        fbm_gen_eq_some token_set_ratio PREDEFINED_QA q c s ans hB hcs (le_trans hge hqs) hl
      rw [hfbm]
      rfl
  · intro hall
    have hnone : find_best_match q = none := by
      cases hB : isBlank q with
      | true => exact fbm_gen_blank token_set_ratio PREDEFINED_QA q hB
      | false =>
        obtain ⟨c, s, hcs⟩ := extractOne_isSome (token_set_ratio q)
          (PREDEFINED_QA.map QAEntry.question) (by rw [questions_eq]; simp)
          (fun x _ => tsr_nonneg _ _)
        obtain ⟨l₁, l₂, hdec, hs, hlt, hle⟩ :=
          extractOne_some_spec _ _ c s (fun x _ => tsr_nonneg _ _) hcs
        have hc_mem : c ∈ PREDEFINED_QA.map QAEntry.question := by
          rw [hdec]
          exact List.mem_append.mpr (Or.inr (List.mem_cons_self _ _))
        obtain ⟨qa0, hqa0, hq0⟩ := List.mem_map.mp hc_mem
        have hlow : s < FUZZY_THRESHOLD := by
          rw [hs, ← hq0]
          exact hall qa0 hqa0
        exact fbm_gen_eq_none_of_low token_set_ratio PREDEFINED_QA q c s hcs (not_le.mpr hlow)
    obtain ⟨a, -, hg⟩ := gar_of_none service q api_key hnone
    exact ⟨hnone, ⟨{ answer := a, source := "OpenAI" }, hg, rfl⟩⟩

/-- Witness for C2: the first corpus question reaches the threshold and is
accepted; the probe "@" scores below the threshold everywhere, is rejected,
and is routed to the fallback source. -/
theorem C2_threshold_acceptance_witness :
    ((∃ qa ∈ PREDEFINED_QA, FUZZY_THRESHOLD ≤ token_set_ratio qEVA qa.question) ∧
      (find_best_match qEVA).isSome = true) ∧
    ((∀ qa ∈ PREDEFINED_QA, token_set_ratio "@" qa.question < FUZZY_THRESHOLD) ∧
      find_best_match "@" = none ∧
        ∃ r, get_agent_response (fun _ _ => Except.error "down") "@" "key" = Except.ok r ∧
          r.source = "OpenAI") := by
  have hex : ∃ qa ∈ PREDEFINED_QA, FUZZY_THRESHOLD ≤ token_set_ratio qEVA qa.question :=
    ⟨{ question := qEVA, answer := aEVA }, List.mem_cons_self _ _, by decide⟩
  have hall : ∀ qa ∈ PREDEFINED_QA, token_set_ratio "@" qa.question < FUZZY_THRESHOLD := by
    intro qa hqa
    rw [tsr_at_zero qa hqa]
    decide
  refine ⟨⟨hex, ?_⟩, hall, ?_⟩
  · exact (C2_threshold_acceptance qEVA "key" (fun _ _ => Except.error "down")).1 hex
  · exact (C2_threshold_acceptance "@" "key" (fun _ _ => Except.error "down")).2 hall

/-- Claim C3: whenever the external service call fails with any error, the
fallback responder propagates no exception: it returns (as a normal value)
the nonempty apology string that embeds the underlying error detail. -/
theorem C3_fallback_converts_errors (service : String → String → Except String String)
    (q k e : String) (h : service q k = Except.error e) :
    get_openai_response service q k = Except.ok (apologyMsg ++ e) ∧
      apologyMsg ++ e ≠ "" ∧ e.data <:+ (apologyMsg ++ e).data := by
  refine ⟨?_, str_append_ne_left e (by decide), ?_⟩
  · unfold get_openai_response
    rw [h]
  · rw [String.data_append]
    exact List.suffix_append _ _

/-- Witness for C3 at a mocked authentication failure. -/
theorem C3_fallback_converts_errors_witness :
    get_openai_response (fun _ _ => Except.error "401 Unauthorized") "hi" "key" =
      Except.ok (apologyMsg ++ "401 Unauthorized") ∧
      apologyMsg ++ "401 Unauthorized" ≠ "" ∧
      ("401 Unauthorized" : String).data <:+ (apologyMsg ++ "401 Unauthorized").data :=
  C3_fallback_converts_errors (fun _ _ => Except.error "401 Unauthorized") "hi" "key"
    "401 Unauthorized" rfl

/-- Claim C4: the resolver is total: for every query, credential and behavior
of the external service (including always failing), `get_agent_response`
never produces an error, always a `ResolvedAnswer` record. -/
theorem C4_resolver_total (service : String → String → Except String String)
    (q k : String) :
    ∃ r : ResolvedAnswer, get_agent_response service q k = Except.ok r := by
  cases hfb : find_best_match q with
  | some m =>
    obtain ⟨a, sc⟩ := m
    exact ⟨{ answer := a, source := predefinedSource sc }, gar_of_match service q k a sc hfb⟩
  | none =>
    obtain ⟨a, -, hg⟩ := gar_of_none service q k hfb
    exact ⟨{ answer := a, source := "OpenAI" }, hg⟩

/-- Claim C5: the source field is exactly the formatted predefined tag (with
the rounded score) when the matcher accepts, and exactly "OpenAI" when it
rejects; no other source value is ever produced. -/
theorem C5_source_field_exact (service : String → String → Except String String)
    (q k : String) (r : ResolvedAnswer)
    (h : get_agent_response service q k = Except.ok r) :
    (∃ a sc, find_best_match q = some (a, sc) ∧ r.answer = a ∧
        r.source = "predefined (match: " ++ toString (roundHalfEven sc) ++ "%)") ∨
      (find_best_match q = none ∧ r.source = "OpenAI") := by
  cases hfb : find_best_match q with
  | some m =>
    obtain ⟨a, sc⟩ := m
    left
    have hg := gar_of_match service q k a sc hfb
    obtain rfl := Except.ok.inj (hg.symm.trans h)
    exact ⟨a, sc, rfl, rfl, rfl⟩
  | none =>
    right
    obtain ⟨a, -, hg⟩ := gar_of_none service q k hfb
    obtain rfl := Except.ok.inj (hg.symm.trans h)
    exact ⟨rfl, rfl⟩

/-- Witness for C5 on both paths: the accepted first corpus question and the
rejected probe "@". -/
theorem C5_source_field_exact_witness :
    ((∃ a sc, find_best_match qEVA = some (a, sc) ∧
        (aEVA : String) = a ∧
        ("predefined (match: 100%)" : String) =
          "predefined (match: " ++ toString (roundHalfEven sc) ++ "%)") ∨
      (find_best_match qEVA = none ∧ ("predefined (match: 100%)" : String) = "OpenAI")) ∧
    ((∃ a sc, find_best_match "@" = some (a, sc) ∧
        (apologyMsg ++ "down" : String) = a ∧
        ("OpenAI" : String) =
          "predefined (match: " ++ toString (roundHalfEven sc) ++ "%)") ∨
      (find_best_match "@" = none ∧ ("OpenAI" : String) = "OpenAI")) := by
  constructor
  · have hget : get_agent_response (fun _ _ => Except.error "down") qEVA "key" =
        Except.ok { answer := aEVA, source := "predefined (match: 100%)" } := by
      rw [gar_of_match (fun _ _ => Except.error "down") qEVA "key" aEVA 100 fbm_qEVA,
        predefinedSource_100]
    have h := C5_source_field_exact (fun _ _ => Except.error "down") qEVA "key"
      { answer := aEVA, source := "predefined (match: 100%)" } hget
    rcases h with ⟨a, sc, h1, h2, h3⟩ | ⟨h1, h2⟩
    · exact Or.inl ⟨a, sc, h1, h2, h3⟩
    · exact Or.inr ⟨h1, h2⟩
  · have hget : get_agent_response (fun _ _ => Except.error "down") "@" "key" =
        Except.ok { answer := apologyMsg ++ "down", source := "OpenAI" } := by
      obtain ⟨a, ha, hg⟩ := gar_of_none (fun _ _ => Except.error "down") "@" "key" fbm_at
      have ha' : a = apologyMsg ++ "down" := by
        have hval : get_openai_response (fun _ _ => Except.error "down") "@" "key" =
            Except.ok (apologyMsg ++ "down") := rfl
        exact Except.ok.inj (ha.symm.trans hval)
      rw [← ha']
      exact hg
    have h := C5_source_field_exact (fun _ _ => Except.error "down") "@" "key"
      { answer := apologyMsg ++ "down", source := "OpenAI" } hget
    rcases h with ⟨a, sc, h1, h2, h3⟩ | ⟨h1, h2⟩
    · exact Or.inl ⟨a, sc, h1, h2, h3⟩
    · exact Or.inr ⟨h1, h2⟩

/-- Claim C6: a blank (empty or whitespace-only) query makes the matcher
return `None` without consulting the scorer at all (the result is `None` for
every scorer), and the resolver routes it to the fallback responder: the
answer is whatever the fallback returns and the source is the fallback tag,
with no special blank-query answer. -/
theorem C6_blank_query_short_circuit (q : String) (hq : isBlank q = true)
    (service : String → String → Except String String) (k : String) :
    (∀ scorer : String → String → ℚ, find_best_match_gen scorer PREDEFINED_QA q = none) ∧
      ∃ a, get_openai_response service q k = Except.ok a ∧
        get_agent_response service q k = Except.ok { answer := a, source := "OpenAI" } := by
  have hnone : ∀ scorer : String → String → ℚ,
      find_best_match_gen scorer PREDEFINED_QA q = none :=
    fun scorer => fbm_gen_blank scorer PREDEFINED_QA q hq
  exact ⟨hnone, gar_of_none service q k (hnone token_set_ratio)⟩

/-- Witness for C6 at the whitespace-only query "  ". -/
theorem C6_blank_query_short_circuit_witness :
    (∀ scorer : String → String → ℚ, find_best_match_gen scorer PREDEFINED_QA "  " = none) ∧
      ∃ a, get_openai_response (fun _ _ => Except.ok "service text") "  " "key" = Except.ok a ∧
        get_agent_response (fun _ _ => Except.ok "service text") "  " "key" =
          Except.ok { answer := a, source := "OpenAI" } :=
  C6_blank_query_short_circuit "  " (by decide) (fun _ _ => Except.ok "service text") "key"

/-- Claim C7: the matcher's scan selects the single highest-scoring corpus
question, breaking ties by first occurrence in corpus order: the returned
choice carries its own score, every choice before it scores strictly less and
every choice after it scores at most as much. -/
theorem C7_first_occurrence_argmax (query c : String) (s : ℚ)
    (h : extractOne (token_set_ratio query) (PREDEFINED_QA.map QAEntry.question) =
      some (c, s)) :
    s = token_set_ratio query c ∧
      (∀ x ∈ PREDEFINED_QA.map QAEntry.question, token_set_ratio query x ≤ s) ∧
      ∃ l₁ l₂, PREDEFINED_QA.map QAEntry.question = l₁ ++ c :: l₂ ∧
        (∀ x ∈ l₁, token_set_ratio query x < s) ∧
        (∀ x ∈ l₂, token_set_ratio query x ≤ s) := by
  obtain ⟨l₁, l₂, hdec, hs, hlt, hle⟩ :=
    extractOne_some_spec _ _ c s (fun x _ => tsr_nonneg _ _) h
  refine ⟨hs, ?_, l₁, l₂, hdec, hlt, hle⟩
  intro x hx
  rw [hdec] at hx
  rcases List.mem_append.mp hx with h1 | h2
  · exact le_of_lt (hlt x h1)
  · rcases List.mem_cons.mp h2 with heq | h3
    · rw [heq]
      exact le_of_eq hs.symm
    · exact hle x h3

/-- Witness for C7 at the first corpus question. -/
theorem C7_first_occurrence_argmax_witness :
    (100 : ℚ) = token_set_ratio qEVA qEVA ∧
      (∀ x ∈ PREDEFINED_QA.map QAEntry.question, token_set_ratio qEVA x ≤ 100) ∧
      ∃ l₁ l₂, PREDEFINED_QA.map QAEntry.question = l₁ ++ qEVA :: l₂ ∧
        (∀ x ∈ l₁, token_set_ratio qEVA x < 100) ∧
        (∀ x ∈ l₂, token_set_ratio qEVA x ≤ 100) :=
  C7_first_occurrence_argmax qEVA qEVA 100 extract_qEVA

/-- Claim C8: within one resolution the matcher is consulted first, and when
it accepts no fallback call can influence the result: on the accepted path
the answer is fully determined by the query and the corpus, identical for
every fallback service and credential. -/
theorem C8_no_fallback_on_accept (q a : String) (sc : ℚ)
    (h : find_best_match q = some (a, sc))
    (service service2 : String → String → Except String String) (k k2 : String) :
    get_agent_response service q k =
        Except.ok { answer := a, source := predefinedSource sc } ∧
      get_agent_response service q k = get_agent_response service2 q k2 := by
  refine ⟨gar_of_match service q k a sc h, ?_⟩
  rw [gar_of_match service q k a sc h, gar_of_match service2 q k2 a sc h]

/-- Witness for C8 at the first corpus question and two disagreeing
services. -/
theorem C8_no_fallback_on_accept_witness :
    get_agent_response (fun _ _ => Except.error "down") qEVA "k1" =
        Except.ok { answer := aEVA, source := predefinedSource 100 } ∧
      get_agent_response (fun _ _ => Except.error "down") qEVA "k1" =
        get_agent_response (fun _ _ => Except.ok "other") qEVA "k2" :=
  C8_no_fallback_on_accept qEVA aEVA 100 fbm_qEVA
    (fun _ _ => Except.error "down") (fun _ _ => Except.ok "other") "k1" "k2"

/-- Claim C9: the resolver is deterministic up to the fallback service: its
result depends on the fallback only through the service's input-output
behavior, so two calls with the same query, the same credential and
extensionally equal (deterministic) services return identical records; the
matcher itself is a pure function, so the embedding carries no state. -/
theorem C9_deterministic (q k : String)
    (s1 s2 : String → String → Except String String)
    (h : ∀ u a, s1 u a = s2 u a) :
    get_agent_response s1 q k = get_agent_response s2 q k := by
  unfold get_agent_response
  cases hfb : find_best_match q with
  | some m => rfl
  | none =>
    unfold get_openai_response
    rw [h q k]

/-- Witness for C9 with two syntactically different but extensionally equal
services. -/
theorem C9_deterministic_witness :
    get_agent_response (fun u _ => Except.ok u) "what is EVA" "key" =
      get_agent_response (fun u _ => Except.ok (u ++ "")) "what is EVA" "key" :=
  C9_deterministic "what is EVA" "key" (fun u _ => Except.ok u)
    (fun u _ => Except.ok (u ++ ""))
    (fun u _ => by simp only [String.append_empty])

/-- Claim C10: whenever `find_best_match` returns a pair, the score cleared
the threshold and the answer is the answer field of the first corpus entry
whose question equals the best-matching question; and had the best-matching
question not been present in the corpus, the lookup loop would fall through
and return `None` (so the surrounding branch would return `None` despite the
score clearing the threshold). -/
theorem C10_accept_structure (q a : String) (sc : ℚ)
    (h : find_best_match q = some (a, sc)) :
    FUZZY_THRESHOLD ≤ sc ∧
      (∃ c, extractOne (token_set_ratio q) (PREDEFINED_QA.map QAEntry.question) =
          some (c, sc) ∧
        ∃ pre qa post, PREDEFINED_QA = pre ++ qa :: post ∧ qa.question = c ∧
          qa.answer = a ∧ ∀ e ∈ pre, e.question ≠ c) ∧
      (∀ (corpus : List QAEntry) (matched : String),
        matched ∉ corpus.map QAEntry.question → lookupAnswer corpus matched = none) := by
  obtain ⟨hb, c, he, ht, hl⟩ := fbm_gen_inv token_set_ratio PREDEFINED_QA q a sc h
  exact ⟨ht, ⟨c, he, lookup_some_split PREDEFINED_QA c a hl⟩,
    fun corpus m hm => lookup_of_not_mem corpus m hm⟩

/-- Witness for C10 at the first corpus question. -/
theorem C10_accept_structure_witness :
    FUZZY_THRESHOLD ≤ (100 : ℚ) ∧
      (∃ c, extractOne (token_set_ratio qEVA) (PREDEFINED_QA.map QAEntry.question) =
          some (c, 100) ∧
        ∃ pre qa post, PREDEFINED_QA = pre ++ qa :: post ∧ qa.question = c ∧
          qa.answer = aEVA ∧ ∀ e ∈ pre, e.question ≠ c) ∧
      (∀ (corpus : List QAEntry) (matched : String),
        matched ∉ corpus.map QAEntry.question → lookupAnswer corpus matched = none) :=
  C10_accept_structure qEVA aEVA 100 fbm_qEVA

end ThoughtfulQA
